import Mathlib

/-!
Verification development for the getgit package manager
(installation/upgrade decision engine, source resolution, permission
validation, and the per-tool marker file).

The Go sources are shallowly embedded: pure string manipulation is
translated directly; external collaborators (git subprocesses, the
filesystem, the YAML library, the interactive prompt) are modelled as
explicit oracle inputs (`Except`/`Option` valued environment records),
and the engine functions return the ordered list of side effects they
perform together with their result.
-/

deriving instance DecidableEq for Except

namespace Getgit

/-- Go `strings.HasPrefix s pre`. -/
def goHasPfx (s pre : String) : Bool := pre.data.isPrefixOf s.data

/-- Helper for `goContains`: does `sub` occur as a contiguous sublist? -/
def containsAux (sub : List Char) : List Char → Bool
  | [] => sub.isEmpty
  | c :: rest => sub.isPrefixOf (c :: rest) || containsAux sub rest

/-- Go `strings.Contains s sub` (substring anywhere). -/
def goContains (s sub : String) : Bool := containsAux sub.data s.data

/-- Go `strings.TrimPrefix s pre`: drops `pre` when it is a prefix, else returns `s` unchanged. -/
def goTrimPfx (s pre : String) : String :=
  if goHasPfx s pre then ⟨s.data.drop pre.data.length⟩ else s

/-- A single-quote character, kept out of string literals. -/
def squote : String := String.mk [Char.ofNat 39]

/-- Split a character list at every occurrence of `c` (Go `strings.Split`
with a one-character separator, on the underlying characters). -/
def splitCharsOn (c : Char) : List Char → List (List Char)
  | [] => [[]]
  | x :: rest =>
    let r := splitCharsOn c rest
    if x = c then [] :: r
    else
      match r with
      | [] => [[x]]
      | h :: t => (x :: h) :: t

/-- Go `strings.Split s "\n"`. -/
def goSplitNL (s : String) : List String :=
  (splitCharsOn (Char.ofNat 10) s.data).map (fun l => ⟨l⟩)

/-- Go `strings.TrimSpace` (whitespace stripped from both ends). -/
def goTrimSpace (s : String) : String :=
  ⟨((s.data.dropWhile Char.isWhitespace).reverse.dropWhile Char.isWhitespace).reverse⟩

/-- Go `strings.Join parts sep`. -/
def goJoin (sep : String) : List String → String
  | [] => ""
  | [x] => x
  | x :: rest => x ++ sep ++ goJoin sep rest

/-! ## The `.getgit` marker file (package getgitfile) -/

/-- Constant `UpdateTrainRelease` from the getgitfile package. -/
def UpdateTrainRelease : String := "release"

/-- Constant `UpdateTrainEdge` from the getgitfile package. -/
def UpdateTrainEdge : String := "edge"

/-- `heredocStart` marker from the getgitfile package (`: <<` then `EOF` in single quotes). -/
def heredocStart : String := ": <<" ++ squote ++ "EOF" ++ squote

/-- `heredocEnd` marker from the getgitfile package. -/
def heredocEnd : String := "EOF"

/-- `GetGitFile`: the parsed contents of a `.getgit` marker
(`sourcefile`, `updates`, and the verbatim load command). -/
structure GetGitFile where
  sourceName : String
  updateTrain : String
  load : String
deriving Repr, DecidableEq

/-- Errors of the getgitfile package (`GetGitFileError` with its `Op` field). -/
inductive GGError where
  | readErr (msg : String)
  | parseErr (msg : String)
  | validateErr (msg : String)
deriving Repr, DecidableEq

/-- `GetGitFile.Validate`: empty source name or an update train other than
release/edge is invalid. Returns `some msg` on failure, `none` when valid. -/
def GetGitFile.validate (g : GetGitFile) : Option String :=
  if g.sourceName = "" then some "source name is empty"
  else if g.updateTrain ≠ UpdateTrainRelease ∧ g.updateTrain ≠ UpdateTrainEdge then
    some ("invalid update train: " ++ g.updateTrain)
  else none

/-- Result of `os.ReadFile` on the marker path: `none` = the file does not
exist; `some (.error m)` = another I/O error; `some (.ok content)` = the raw
file content. -/
def FileRead := Option (Except String String)

/-- Accumulator for the line scan of `ReadFromRepo`. -/
structure ScanState where
  yamlContent : List String
  loadCommands : List String
  inHeredoc : Bool
deriving Repr, DecidableEq

/-- One iteration of the line loop in `ReadFromRepo`: heredoc delimiters flip
the mode, heredoc lines collect as YAML, other non-empty non-comment lines
collect as load commands. -/
def scanLine (st : ScanState) (line : String) : ScanState :=
  if goTrimSpace line = heredocStart then { st with inHeredoc := true }
  else if goTrimSpace line = heredocEnd then { st with inHeredoc := false }
  else if st.inHeredoc then { st with yamlContent := st.yamlContent ++ [line] }
  else if line ≠ "" ∧ ¬ goHasPfx (goTrimSpace line) "#" then
    { st with loadCommands := st.loadCommands ++ [line] }
  else st

/-- `ReadFromRepo` from the getgitfile package (the variant with `Validate`):
missing file is `ok none`; a read error or YAML parse failure is an error;
a record that fails `Validate` is an error; otherwise the record is returned
with its load command set to the collected non-heredoc lines.
`yamlParse` models `yaml.Unmarshal` into a zero-valued `GetGitFile`. -/
def ReadFromRepo (yamlParse : String → Except String GetGitFile) (file : FileRead) :
    Except GGError (Option GetGitFile) :=
  match file with
  | none => .ok none
  | some (.error m) => .error (.readErr ("failed to read .getgit file: " ++ m))
  | some (.ok content) =>
    let st := (goSplitNL content).foldl scanLine ⟨[], [], false⟩
    let parsed : Except String GetGitFile :=
      if st.yamlContent.length > 0 then
        yamlParse (goJoin "\n" st.yamlContent)
      else .ok ⟨"", "", ""⟩
    match parsed with
    | .error m => .error (.parseErr ("invalid .getgit file YAML format: " ++ m))
    | .ok g =>
      match g.validate with
      | some m => .error (.validateErr m)
      | none => .ok (some { g with load := goJoin "\n" st.loadCommands })

/-- `WriteToRepo` from the getgitfile package: an update train that is neither
release nor edge is replaced by release, the record is validated, and on
success the record as persisted is returned (the marshal/`os.WriteFile` I/O
is outside the model). -/
def WriteToRepo (sourceName updateTrain loadCommand : String) :
    Except GGError GetGitFile :=
  let train :=
    if updateTrain ≠ UpdateTrainRelease ∧ updateTrain ≠ UpdateTrainEdge then
      UpdateTrainRelease
    else updateTrain
  let g : GetGitFile := ⟨sourceName, train, loadCommand⟩
  match g.validate with
  | some m => .error (.validateErr m)
  | none => .ok g

/-- `Manager.GetUpdateTrain` from the getgitfile package. `markerRead` models
`m.Read toolName` (marker file read and parse); `hasTags` models the
`git tag -l` probe (`.error` = the command failed). Returns the chosen train
and the second Bool the function reports alongside it. -/
def GetUpdateTrain (toolName : String) (markerRead : Except GGError (Option GetGitFile))
    (hasTags : Except String Bool) (edge release : Bool) : String × Bool :=
  -- mirrors `err == nil && !hasTags` on the `git tag -l` probe
  let tagless : Bool := match hasTags with | .ok b => !b | .error _ => false
  if edge then (UpdateTrainEdge, false)
  else if release then
    if toolName ≠ "" ∧ tagless then (UpdateTrainEdge, true)
    else (UpdateTrainRelease, false)
  else
    match markerRead with
    | .ok (some g) => (g.updateTrain, decide (g.updateTrain = UpdateTrainEdge))
    | _ =>
      if toolName ≠ "" ∧ tagless then (UpdateTrainEdge, true)
      else (UpdateTrainRelease, false)

/-! ## Source manifests and origin permissions (package sources) -/

/-- `Permission`: one permission entry with its list of allowed origins. -/
structure Permission where
  origins : List String
deriving Repr, DecidableEq

/-- `Repository` from the sources package: one tool declaration in a manifest. -/
structure SrcRepo where
  name : String
  url : String
  build : String
  executable : String
  load : String
deriving Repr, DecidableEq

/-- `Source`: a manifest with its name, origin URL, permission entries and
repository declarations. -/
structure Source where
  name : String
  origin : String
  permissions : List Permission
  repos : List SrcRepo
deriving Repr, DecidableEq

/-- `RepoMatch`: a repository joined with its owning manifest. -/
structure RepoMatch where
  repo : SrcRepo
  source : Source
deriving Repr, DecidableEq

/-- `isURLAllowed` from src/pkg/sources/source.go: with no origin restriction
anywhere, GitHub URLs pass by default; otherwise a permission entry with an
empty origins list admits everything, and a declared origin admits URLs it
is a prefix of. -/
def isURLAllowed (s : Source) (url : String) : Bool :=
  let hasOriginRestrictions := s.permissions.any (fun p => p.origins.length > 0)
  if ¬hasOriginRestrictions ∧ goHasPfx url "https://github.com/" then true
  else
    s.permissions.any (fun p =>
      p.origins.isEmpty || p.origins.any (fun o => goHasPfx url o))

/-- The URL-acceptance computation of `ValidatePermissions` from the duplicate
sources implementation (the variant embedded beside the tests): with no origin
restriction anywhere every URL passes; otherwise a URL passes iff it contains
some declared origin as a substring. -/
def validatePermissionsURLAllowed (s : Source) (url : String) : Bool :=
  let hasOriginRestrictions := s.permissions.any (fun p => p.origins.length > 0)
  if ¬hasOriginRestrictions then true
  else
    s.permissions.any (fun p => p.origins.any (fun o => goContains url o))

/-- `Source.ValidateURLHost` from src/pkg/sources/source.go. -/
def ValidateURLHost (s : Source) (url : String) : Except String Unit :=
  if isURLAllowed s url then .ok ()
  else .error "URL host not allowed by source permissions"

/-- The validation loop of `NormalizeAndValidateURL`: every loaded source must
accept the URL; the first failure aborts. -/
def validateAllSources : List Source → String → Except String Unit
  | [], _ => .ok ()
  | s :: rest, url =>
    match ValidateURLHost s url with
    | .error e => .error ("URL host not allowed: " ++ e)
    | .ok _ => validateAllSources rest url

/-- The URL produced by `NormalizeAndValidateURL` before validation:
absolute http(s) URLs pass through, anything else is rewritten to a full
GitHub clone URL. -/
def goNormalizeURL (url : String) : String :=
  if goHasPfx url "http://" ∨ goHasPfx url "https://" then url
  else
    let cleanURL := goTrimPfx url "github.com/"
    let cleanURL := goTrimPfx cleanURL "https://github.com/"
    let cleanURL := goTrimPfx cleanURL "http://github.com/"
    "https://github.com/" ++ cleanURL ++ ".git"

/-- `SourceManager.NormalizeAndValidateURL` from src/pkg/sources/source.go:
normalizes the URL and checks it against every loaded source. -/
def NormalizeAndValidateURL (sources : List Source) (url : String) :
    Except String String :=
  if goHasPfx url "http://" ∨ goHasPfx url "https://" then
    match validateAllSources sources url with
    | .error e => .error e
    | .ok _ => .ok url
  else
    let cleanURL := goTrimPfx url "github.com/"
    let cleanURL := goTrimPfx cleanURL "https://github.com/"
    let cleanURL := goTrimPfx cleanURL "http://github.com/"
    let normalizedURL := "https://github.com/" ++ cleanURL ++ ".git"
    match validateAllSources sources normalizedURL with
    | .error e => .error e
    | .ok _ => .ok normalizedURL

/-! ## The tool lifecycle engine (repository manager and cmd layer)

External collaborators (git subprocesses, the prompt, the load/alias file)
are modelled as oracle fields in environment records; each engine function
returns the ordered list of side effects it performed together with its
result. Error strings keep the wording of the Go sources, except that the
Go code wraps tool names in single quotes, which the model omits
uniformly. -/

/-- One observable side effect of the engine. -/
inductive Effect where
  | getRepoState
  | updateRepo (useEdge : Bool)
  | getCurrentTag
  | getLatestTag
  | checkTags
  | checkEdgeUpdates
  | fetchUpdates
  | build (cmd : String)
  | addAlias (tool : String)
  | addSource (tool : String)
  | writeGetgit (g : GetGitFile)
  | clone (url : String)
deriving Repr, DecidableEq

/-- `repository.Repository`: the argument record of `UpdatePackage`. -/
structure ToolRepo where
  name : String
  url : String
  build : String
  executable : String
  load : String
  useEdge : Bool
  skipBuild : Bool
  sourceName : String
deriving Repr, DecidableEq

/-- Oracle outcomes for the external calls made by `Manager.UpdatePackage`. -/
structure UpdateEnv where
  repoDirExists : Bool
  refBefore : Except String String
  updateRepoResult : Except String Unit
  refAfter : Except String String
  currentTagResult : Except String String
  buildResult : Except String Unit
  addAliasResult : Except String Unit
  addSourceResult : Except String Unit
deriving Repr, DecidableEq

/-- Result of `UpdatePackage`: performed effects, outcome, and whether the
"already up to date" report was emitted. -/
structure UPResult where
  effects : List Effect
  result : Except String Unit
  upToDate : Bool
deriving Repr, DecidableEq

/-- Tail of `UpdatePackage`: the alias and load-source registration that the
Go code always reaches on the success path, regardless of whether the refs
changed. -/
def aliasSteps (repo : ToolRepo) (env : UpdateEnv) (effs : List Effect)
    (upToDate : Bool) : UPResult :=
  if repo.executable ≠ "" then
    match env.addAliasResult with
    | .error e =>
      ⟨effs ++ [.addAlias repo.name], .error ("failed to create alias: " ++ e), upToDate⟩
    | .ok _ =>
      match env.addSourceResult with
      | .error e =>
        ⟨effs ++ [.addAlias repo.name, .addSource repo.name],
          .error ("failed to add source command: " ++ e), upToDate⟩
      | .ok _ =>
        ⟨effs ++ [.addAlias repo.name, .addSource repo.name], .ok (), upToDate⟩
  else
    match env.addSourceResult with
    | .error e =>
      ⟨effs ++ [.addSource repo.name], .error ("failed to add source command: " ++ e), upToDate⟩
    | .ok _ => ⟨effs ++ [.addSource repo.name], .ok (), upToDate⟩

/-- The conditional rebuild of `UpdatePackage`, entered only when the refs
differ; continues into `aliasSteps`. -/
def buildSteps (repo : ToolRepo) (env : UpdateEnv) (effs : List Effect) : UPResult :=
  if ¬repo.skipBuild then
    match env.buildResult with
    | .error e =>
      ⟨effs ++ [.build repo.build], .error ("failed to build tool: " ++ e), false⟩
    | .ok _ => aliasSteps repo env (effs ++ [.build repo.build]) false
  else aliasSteps repo env effs false

/-- `Manager.UpdatePackage` (the manager variant with ref-fingerprinting):
capture the current ref, move the repository for its train, capture the new
ref; rebuild only when the two refs differ (verifying the tag first in
release mode), report "already up to date" when they agree, and in either
case register the alias and the load-source entry. -/
def UpdatePackage (repo : ToolRepo) (env : UpdateEnv) : UPResult :=
  if ¬env.repoDirExists then ⟨[], .error "repository not found", false⟩
  else
    match env.refBefore with
    | .error e => ⟨[.getRepoState], .error ("failed to get current state: " ++ e), false⟩
    | .ok currentRef =>
      match env.updateRepoResult with
      | .error e =>
        ⟨[.getRepoState, .updateRepo repo.useEdge],
          .error ("failed to update repository: " ++ e), false⟩
      | .ok _ =>
        match env.refAfter with
        | .error e =>
          ⟨[.getRepoState, .updateRepo repo.useEdge, .getRepoState],
            .error ("failed to get new state: " ++ e), false⟩
        | .ok newRef =>
          let effs : List Effect := [.getRepoState, .updateRepo repo.useEdge, .getRepoState]
          if currentRef ≠ newRef then
            if repo.useEdge then buildSteps repo env effs
            else
              match env.currentTagResult with
              | .error e =>
                ⟨effs ++ [.getCurrentTag], .error ("failed to get current tag: " ++ e), false⟩
              | .ok _ => buildSteps repo env (effs ++ [.getCurrentTag])
          else aliasSteps repo env effs true

/-- Index handling of `promptSourceSelection`: a missing or out-of-range
1-based choice is an invalid selection. `choice = none` models a `Scanf`
failure. -/
def chooseMatch (matchList : List RepoMatch) (choice : Option Nat) :
    Except String RepoMatch :=
  match choice with
  | none => .error "invalid selection"
  | some i =>
    if i < 1 then .error "invalid selection"
    else
      match matchList.get? (i - 1) with
      | some m => .ok m
      | none => .error "invalid selection"

/-- The source-selection step shared by the cmd layer when no marker pinned a
manifest: a single match is auto-selected, several require the prompt. -/
def selectFromMatches (matchList : List RepoMatch) (choice : Option Nat) :
    Except String RepoMatch :=
  match matchList with
  | [m] => .ok m
  | _ =>
    match chooseMatch matchList choice with
    | .error e => .error ("source selection failed: " ++ e)
    | .ok m => .ok m

/-- Oracle outcomes for the external calls made by `installTool`. -/
structure InstallEnv where
  isInstalledResult : Except String Bool
  markerRead : Except GGError (Option GetGitFile)
  hasTagsGG : Except String Bool
  promptChoice : Option Nat
  gitDirExists : Bool
  hasEdgeUpdates : Except String Bool
  hasTagsRM : Except String Bool
  currentTag : String
  latestTagResult : Except String String
  cloneResult : Except String Unit
  updatePkg : UpdateEnv
deriving Repr, DecidableEq

/-- `installTool` from the install command (the variant with the
train-switch pre-write): resolve the match (marker provenance first, then
single-match auto-selection, then the prompt), validate the URL against every
loaded source, resolve the update train; on a train switch write the new
marker first and then move the working copy, skipping the update check; on an
unchanged train check for updates and stop at "already up to date"; for a new
installation clone, write the marker, then update. -/
def installTool (srcs : List Source) (matchList : List RepoMatch) (toolName : String)
    (edge release skipBuild : Bool) (env : InstallEnv) :
    List Effect × Except String String :=
  if matchList.isEmpty then ([], .error ("tool " ++ toolName ++ " not found in any source"))
  else
    match env.isInstalledResult with
    | .error e => ([], .error ("failed to check existing installation: " ++ e))
    | .ok isExistingInstall =>
      let markerStep : Except String (Option GetGitFile × Option RepoMatch) :=
        if isExistingInstall then
          match env.markerRead with
          | .error _ => .error "failed to read tool configuration"
          | .ok (some g) =>
            match matchList.find? (fun m => m.source.name = g.sourceName) with
            | some m => .ok (some g, some m)
            | none =>
              .error ("source " ++ g.sourceName ++
                " specified in configuration no longer contains this tool")
          | .ok none => .ok (none, none)
        else .ok (none, none)
      match markerStep with
      | .error e => ([], .error e)
      | .ok (marker, pinned) =>
        let selectedE : Except String RepoMatch :=
          match pinned with
          | some m => .ok m
          | none => selectFromMatches matchList env.promptChoice
        match selectedE with
        | .error e => ([], .error e)
        | .ok selected =>
          match NormalizeAndValidateURL srcs selected.repo.url with
          | .error e => ([], .error ("failed to validate URL: " ++ e))
          | .ok repoURL =>
            let newUpdateTrain :=
              (GetUpdateTrain toolName env.markerRead env.hasTagsGG edge release).1
            let useEdgeTrain : Bool := decide (newUpdateTrain = UpdateTrainEdge)
            let toolRepo : ToolRepo :=
              ⟨selected.repo.name, repoURL, selected.repo.build,
                selected.repo.executable, selected.repo.load,
                useEdgeTrain, skipBuild, selected.source.name⟩
            let proceed : List Effect → String → List Effect × Except String String :=
              fun effs doneMsg =>
                let up := UpdatePackage toolRepo env.updatePkg
                (effs ++ up.effects,
                  match up.result with
                  | .error e => .error ("failed to install tool: " ++ e)
                  | .ok _ => .ok doneMsg)
            if isExistingInstall then
              let updateTrainChanged : Bool :=
                match marker with
                | some g => decide (g.updateTrain ≠ newUpdateTrain)
                | none => useEdgeTrain
              if updateTrainChanged then
                match WriteToRepo selected.source.name newUpdateTrain selected.repo.load with
                | .error _ => ([], .error "failed to write tool configuration")
                | .ok w =>
                  let up := UpdatePackage toolRepo env.updatePkg
                  (Effect.writeGetgit w :: up.effects,
                    match up.result with
                    | .error e => .error ("failed to install tool: " ++ e)
                    | .ok _ => .ok "updated")
              else
                if env.gitDirExists then
                  if useEdgeTrain then
                    match env.hasEdgeUpdates with
                    | .error e =>
                      ([.checkEdgeUpdates],
                        .error ("failed to check for edge updates: " ++ e))
                    | .ok false => ([.checkEdgeUpdates], .ok "already up to date")
                    | .ok true => proceed [.checkEdgeUpdates] "installation completed"
                  else
                    match env.hasTagsRM with
                    | .error e => ([.checkTags], .error ("failed to check for tags: " ++ e))
                    | .ok true =>
                      match env.latestTagResult with
                      | .error e =>
                        ([.checkTags, .getCurrentTag, .getLatestTag],
                          .error ("failed to get latest tag: " ++ e))
                      | .ok latestTag =>
                        if env.currentTag ≠ latestTag then
                          proceed [.checkTags, .getCurrentTag, .getLatestTag]
                            "installation completed"
                        else
                          ([.checkTags, .getCurrentTag, .getLatestTag],
                            .ok "already up to date")
                    | .ok false => ([.checkTags], .ok "already up to date")
                else proceed [] "installation completed"
            else
              match env.cloneResult with
              | .error e =>
                ([Effect.clone repoURL], .error ("failed to clone repository: " ++ e))
              | .ok _ =>
                match WriteToRepo selected.source.name newUpdateTrain selected.repo.load with
                | .error _ => ([Effect.clone repoURL], .error "failed to write tool configuration")
                | .ok w =>
                  proceed [Effect.clone repoURL, Effect.writeGetgit w]
                    "installation completed"

/-- Modelled from the spec: `getgitfile.Manager.WriteConfig`, reached through
`Manager.WriteToolConfig`, is not among the provided sources (only its caller
is). Per the specification of `write(toolName, sourceManifestName,
updateTrain, loadCommand)` it persists the marker, normalizing an invalid
update train to release, exactly like `WriteToRepo`. -/
def WriteConfig (sourceName updateTrain loadCommand : String) :
    Except GGError GetGitFile :=
  WriteToRepo sourceName updateTrain loadCommand

/-- Oracle outcomes for the external calls made by `upgradeSpecificTool`. -/
structure UpgradeEnv where
  toolInstalled : Bool
  markerRead : Except GGError (Option GetGitFile)
  promptChoice : Option Nat
  fetchResult : Except String Unit
  hasEdgeUpdates : Except String Bool
  currentTagResult : Except String String
  latestTagResult : Except String String
  isTagNewerResult : Except String Bool
  updatePkg : UpdateEnv
deriving Repr, DecidableEq

/-- `checkForUpdates` from the upgrade command: fetch, then either compare
local and remote heads (edge) or compare the current tag against the latest
tag, treating a repository with no tags at all as needing an update. -/
def checkForUpdates (useEdge : Bool) (env : UpgradeEnv) :
    List Effect × Except String (Bool × String) :=
  match env.fetchResult with
  | .error e => ([.fetchUpdates], .error ("failed to fetch updates: " ++ e))
  | .ok _ =>
    if useEdge then
      match env.hasEdgeUpdates with
      | .error e =>
        ([.fetchUpdates, .checkEdgeUpdates],
          .error ("failed to check for edge updates: " ++ e))
      | .ok b => ([.fetchUpdates, .checkEdgeUpdates], .ok (b, ""))
    else
      match env.currentTagResult with
      | .error e =>
        ([.fetchUpdates, .getCurrentTag], .error ("failed to get current tag: " ++ e))
      | .ok currentTag =>
        match env.latestTagResult with
        | .error e =>
          ([.fetchUpdates, .getCurrentTag, .getLatestTag],
            .error ("failed to get latest tag: " ++ e))
        | .ok latestTag =>
          if latestTag = "" then
            ([.fetchUpdates, .getCurrentTag, .getLatestTag], .ok (true, ""))
          else if currentTag = "" then
            ([.fetchUpdates, .getCurrentTag, .getLatestTag], .ok (true, latestTag))
          else
            match env.isTagNewerResult with
            | .error e =>
              ([.fetchUpdates, .getCurrentTag, .getLatestTag],
                .error ("failed to compare versions: " ++ e))
            | .ok b =>
              ([.fetchUpdates, .getCurrentTag, .getLatestTag], .ok (b, latestTag))

/-- `upgradeSpecificTool` from the upgrade command (the variant that rewrites
the tool configuration at the end): resolve the match from the marker (or
auto/prompt selection, writing an initial release marker in the prompt case),
determine the train from the marker, check for updates, report "already up to
date" as an error, otherwise update the package and finally write the tool
configuration with the literal train "release". -/
def upgradeSpecificTool (matchList : List RepoMatch) (toolName : String)
    (skipBuild : Bool) (env : UpgradeEnv) : List Effect × Except String Unit :=
  if ¬env.toolInstalled then ([], .error ("tool " ++ toolName ++ " is not installed"))
  else if matchList.isEmpty then
    ([], .error ("tool " ++ toolName ++ " not found in any source"))
  else
    match env.markerRead with
    | .error _ => ([], .error "failed to read .getgit file")
    | .ok marker =>
      let selE : Except String (RepoMatch × List Effect) :=
        match marker with
        | some g =>
          match matchList.find? (fun m => m.source.name = g.sourceName) with
          | some m => .ok (m, [])
          | none =>
            .error ("source " ++ g.sourceName ++
              " specified in .getgit file no longer contains this tool")
        | none =>
          match matchList with
          | [m] => .ok (m, [])
          | _ =>
            match chooseMatch matchList env.promptChoice with
            | .error e => .error ("source selection failed: " ++ e)
            | .ok m =>
              match WriteToRepo m.source.name UpdateTrainRelease m.repo.load with
              | .error _ => .error "failed to write .getgit file"
              | .ok w => .ok (m, [.writeGetgit w])
      match selE with
      | .error e => ([], .error e)
      | .ok (selected, selEffs) =>
        let useEdge : Bool :=
          match marker with
          | some g => decide (g.updateTrain = "edge")
          | none => false
        let checked := checkForUpdates useEdge env
        match checked.2 with
        | .error e => (selEffs ++ checked.1, .error ("failed to check for updates: " ++ e))
        | .ok (hasUpdates, _) =>
          if ¬hasUpdates then
            (selEffs ++ checked.1, .error ("tool " ++ toolName ++ " is already up to date"))
          else
            let toolRepo : ToolRepo :=
              ⟨selected.repo.name, selected.repo.url, selected.repo.build,
                selected.repo.executable, selected.repo.load,
                useEdge, skipBuild, selected.source.name⟩
            let up := UpdatePackage toolRepo env.updatePkg
            match up.result with
            | .error e =>
              (selEffs ++ checked.1 ++ up.effects,
                .error ("failed to update " ++ toolName ++ ": " ++ e))
            | .ok _ =>
              match WriteConfig selected.source.name "release" selected.repo.load with
              | .error _ =>
                (selEffs ++ checked.1 ++ up.effects,
                  .error "failed to write tool configuration")
              | .ok w =>
                (selEffs ++ checked.1 ++ up.effects ++ [.writeGetgit w], .ok ())

/-! ## The batch upgrade (`upgradeAllTools`) -/

/-- One directory entry under the work directory, with the oracle outcomes of
its per-tool calls: `markerRead` models the `ReadFromRepo` probe done in the
loop, `upgradeResult` the outcome of `upgradeSpecificTool` for this tool. -/
structure ToolEntry where
  name : String
  isDir : Bool
  hasGitDir : Bool
  markerRead : Except GGError (Option GetGitFile)
  upgradeResult : Except String Unit
deriving Repr, DecidableEq

/-- A directory entry participates in the batch iff it is a directory other
than `.git` containing VCS metadata. -/
def eligibleEntry (e : ToolEntry) : Bool := e.isDir && e.name ≠ ".git" && e.hasGitDir

/-- Accumulated outcome of the batch loop. -/
structure BatchState where
  errors : List String
  skipped : Nat
  updated : Nat
  attempted : List String
deriving Repr, DecidableEq

/-- One iteration of the `upgradeAllTools` loop: ineligible entries are
skipped silently; a marker read failure is recorded as an error; otherwise
the up-to-date error counts as skipped, any other error as failed, and
success as updated. -/
def processEntry (st : BatchState) (e : ToolEntry) : BatchState :=
  if ¬eligibleEntry e then st
  else
    let st := { st with attempted := st.attempted ++ [e.name] }
    match e.markerRead with
    | .error _ =>
      { st with errors := st.errors ++ [e.name ++ ": failed to read .getgit file"] }
    | .ok _ =>
      match e.upgradeResult with
      | .error msg =>
        if msg = "tool " ++ e.name ++ " is already up to date" then
          { st with skipped := st.skipped + 1 }
        else { st with errors := st.errors ++ [e.name ++ ": " ++ msg] }
      | .ok _ => { st with updated := st.updated + 1 }

/-- `upgradeAllTools` from the upgrade command: count the eligible working
copies, process each one in turn isolating per-tool failures, and fail
overall iff at least one tool failed. -/
def upgradeAllTools (entries : List ToolEntry) : BatchState × Except String Unit :=
  let total := (entries.filter eligibleEntry).length
  if total = 0 then (⟨[], 0, 0, []⟩, .ok ())
  else
    let st := entries.foldl processEntry ⟨[], 0, 0, []⟩
    (st,
      if st.errors.isEmpty then .ok ()
      else .error (toString st.errors.length ++ " tools failed to upgrade"))

/-! ## Concrete instances used by counterexamples and witnesses -/

/-- A restricted manifest declaring the single origin string `github.com`. -/
def restrictedSource : Source := ⟨"default", "", [⟨["github.com"]⟩], []⟩

/-- A manifest with one permission entry declaring no origins (admits every
URL under both origin checks). -/
def openSource : Source := ⟨"open", "", [⟨[]⟩], []⟩

/-- A tool declaration used by the lifecycle scenarios. -/
def k9sRepo : SrcRepo := ⟨"k9s", "u", "make build", "execs/k9s", "ld"⟩

/-- The manifest `default` declaring `k9s`. -/
def defaultSource : Source := ⟨"default", "", [], [k9sRepo]⟩

/-- The catalog match for `k9s` in manifest `default`. -/
def k9sMatch : RepoMatch := ⟨k9sRepo, defaultSource⟩

/-- An `UpdatePackage` environment in which every call succeeds and the ref
is `v1.0` both before and after the move (tool already up to date). -/
def envRefsEqual : UpdateEnv :=
  ⟨true, .ok "v1.0", .ok (), .ok "v1.0", .ok "v1.0", .ok (), .ok (), .ok ()⟩

/-- An `UpdatePackage` environment in which every call succeeds and the move
advances the ref from `v1.0` to `v1.1`. -/
def envRefsDiffer : UpdateEnv :=
  ⟨true, .ok "v1.0", .ok (), .ok "v1.1", .ok "v1.1", .ok (), .ok (), .ok ()⟩

/-- An `installTool` environment: `k9s` installed with a release marker from
`default`, repository has tags, all external calls succeed, the move
advances the ref. -/
def envInstallSwitch : InstallEnv :=
  ⟨.ok true, .ok (some ⟨"default", "release", "ld"⟩), .ok true, none, true,
    .ok false, .ok true, "v1", .ok "v1", .ok (), envRefsDiffer⟩

/-- An `upgradeSpecificTool` environment: `k9s` installed with an edge marker
from `default`, new commits available, all external calls succeed. -/
def envUpgradeEdge : UpgradeEnv :=
  ⟨true, .ok (some ⟨"default", "edge", "ld"⟩), none, .ok (), .ok true,
    .ok "", .ok "", .ok true, envRefsDiffer⟩

/-- A batch entry whose per-tool upgrade has the given outcome. -/
def batchEntry (n : String) (r : Except String Unit) : ToolEntry :=
  ⟨n, true, true, .ok none, r⟩

/-- The `UpdatePackage` argument for `k9s` on the release train with an
executable and a build command. -/
def k9sToolRepo : ToolRepo :=
  ⟨"k9s", "u", "make build", "execs/k9s", "ld", false, false, "default"⟩

/-! ## Theorems -/

/-- C3: for every call of the update-train resolution where the release flag
is explicitly set (and the edge flag is not) and the repository of the named
tool has zero tags, the resolution returns train edge together with the
fallback indicator true instead of release. -/
theorem getUpdateTrain_release_tagless_falls_back
    (toolName : String) (markerRead : Except GGError (Option GetGitFile))
    (hasTags : Except String Bool)
    (h1 : toolName ≠ "") (h2 : hasTags = Except.ok false) :
    GetUpdateTrain toolName markerRead hasTags false true = (UpdateTrainEdge, true) := by
  subst h2
  simp [GetUpdateTrain, h1]

/-- Witness for C3 at the concrete tool `k9s` with no marker and no tags. -/
theorem getUpdateTrain_release_tagless_falls_back_witness :
    GetUpdateTrain "k9s" (.ok none) (.ok false) false true = (UpdateTrainEdge, true) :=
  getUpdateTrain_release_tagless_falls_back "k9s" (.ok none) (.ok false)
    (by decide) rfl

/-- C4 counterexample: with neither flag set and a readable marker recording
train edge, the resolution returns the indicator `true`, not the `false` the
claim asserts for this branch. -/
theorem getUpdateTrain_marker_edge_indicator_true :
    GetUpdateTrain "k9s" (.ok (some ⟨"default", "edge", ""⟩)) (.ok true) false false
      = (UpdateTrainEdge, true) := by decide

/-- C4 (amended): with neither flag set and a readable marker, the resolution
returns the marker train together with the indicator `train = edge` — false
when the marker records release, true when it records edge. -/
theorem getUpdateTrain_marker_branch
    (toolName : String) (g : GetGitFile) (hasTags : Except String Bool) :
    GetUpdateTrain toolName (.ok (some g)) hasTags false false
      = (g.updateTrain, decide (g.updateTrain = UpdateTrainEdge)) := by
  simp [GetUpdateTrain]

/-- Witness for C4 (amended) at a release marker: the indicator is false. -/
theorem getUpdateTrain_marker_branch_witness :
    GetUpdateTrain "k9s" (.ok (some ⟨"default", "release", ""⟩)) (.ok true) false false
      = ("release", decide ("release" = UpdateTrainEdge)) :=
  getUpdateTrain_marker_branch "k9s" ⟨"default", "release", ""⟩ (.ok true)

/-- C6: reading the marker returns an absent result with no error exactly
when no marker file exists; a present but malformed marker yields a parse
error; a marker that parses but has an empty source name yields a validation
error. -/
theorem readFromRepo_absence_and_validation
    (yamlParse : String → Except String GetGitFile) (file : FileRead) :
    (ReadFromRepo yamlParse file = .ok none ↔ file = none)
    ∧ (∀ content m, file = some (.ok content) →
        ((goSplitNL content).foldl scanLine ⟨[], [], false⟩).yamlContent.length > 0 →
        yamlParse (goJoin "\n"
          ((goSplitNL content).foldl scanLine ⟨[], [], false⟩).yamlContent) = .error m →
        ReadFromRepo yamlParse file
          = .error (.parseErr ("invalid .getgit file YAML format: " ++ m)))
    ∧ (∀ content g, file = some (.ok content) →
        (if ((goSplitNL content).foldl scanLine ⟨[], [], false⟩).yamlContent.length > 0 then
          yamlParse (goJoin "\n"
            ((goSplitNL content).foldl scanLine ⟨[], [], false⟩).yamlContent)
         else .ok ⟨"", "", ""⟩) = .ok g →
        g.sourceName = "" →
        ReadFromRepo yamlParse file = .error (.validateErr "source name is empty")) := by
  refine ⟨⟨?_, ?_⟩, ?_, ?_⟩
  · intro h
    rcases file with _ | f
    · rfl
    · rcases f with m | content
      · simp [ReadFromRepo] at h
      · exfalso
        simp only [ReadFromRepo] at h
        split at h
        · cases h
        · split at h
          · cases h
          · simp at h
  · intro h; subst h; rfl
  · intro content m hf hlen hparse
    subst hf
    simp only [ReadFromRepo]
    rw [if_pos hlen, hparse]
  · intro content g hf hparse hsrc
    subst hf
    simp only [ReadFromRepo]
    rw [hparse]
    simp [GetGitFile.validate, hsrc]

/-- Witness for C6: a marker whose YAML block parses to an empty source name
is rejected with a validation error, not returned as a usable record. -/
theorem readFromRepo_absence_and_validation_witness :
    ReadFromRepo (fun _ => .ok ⟨"", "release", ""⟩)
        (some (.ok (": <<" ++ squote ++ "EOF" ++ squote ++ "\nsourcefile: \nEOF\n")))
      = .error (.validateErr "source name is empty") :=
  (readFromRepo_absence_and_validation (fun _ => .ok ⟨"", "release", ""⟩)
      (some (.ok (": <<" ++ squote ++ "EOF" ++ squote ++ "\nsourcefile: \nEOF\n")))).2.2
    (": <<" ++ squote ++ "EOF" ++ squote ++ "\nsourcefile: \nEOF\n") ⟨"", "release", ""⟩
    rfl (by decide) rfl

/-- Normal form of `WriteToRepo`: it fails only on an empty source name, and
otherwise persists the normalized train. -/
theorem writeToRepo_normal_form (s t l : String) :
    WriteToRepo s t l =
      if s = "" then .error (.validateErr "source name is empty")
      else .ok ⟨s,
        if t ≠ UpdateTrainRelease ∧ t ≠ UpdateTrainEdge then UpdateTrainRelease else t,
        l⟩ := by
  by_cases hv : t ≠ UpdateTrainRelease ∧ t ≠ UpdateTrainEdge
  · simp only [WriteToRepo]
    rw [if_pos hv]
    by_cases hs : s = "" <;>
      simp [GetGitFile.validate, hs, UpdateTrainRelease, UpdateTrainEdge]
  · rcases not_and_or.mp hv with h | h
    · have hr : t = UpdateTrainRelease := not_not.mp h
      subst hr
      by_cases hs : s = "" <;>
        simp [WriteToRepo, GetGitFile.validate, hs, UpdateTrainRelease, UpdateTrainEdge]
    · have he : t = UpdateTrainEdge := not_not.mp h
      subst he
      by_cases hs : s = "" <;>
        simp [WriteToRepo, GetGitFile.validate, hs, UpdateTrainRelease, UpdateTrainEdge]

/-- C7: writing the marker normalizes an update train that is neither release
nor edge to release before persisting; the write never fails on the ground of
the update train (its success is independent of the train argument), and a
persisted record always carries release or edge. -/
theorem writeToRepo_normalizes_train (s t l : String) :
    (∀ g, WriteToRepo s t l = .ok g →
      (g.updateTrain = UpdateTrainRelease ∨ g.updateTrain = UpdateTrainEdge))
    ∧ ((WriteToRepo s t l).isOk = (WriteToRepo s UpdateTrainRelease l).isOk)
    ∧ (t ≠ UpdateTrainRelease → t ≠ UpdateTrainEdge →
        WriteToRepo s t l = WriteToRepo s UpdateTrainRelease l) := by
  refine ⟨?_, ?_, ?_⟩
  · intro g hg
    rw [writeToRepo_normal_form] at hg
    by_cases hs : s = ""
    · simp [hs] at hg
    · simp [hs] at hg
      by_cases hv : t ≠ UpdateTrainRelease ∧ t ≠ UpdateTrainEdge
      · rw [if_pos hv] at hg; subst hg; left; rfl
      · rw [if_neg hv] at hg
        subst hg
        rcases not_and_or.mp hv with h | h
        · left; exact not_not.mp h
        · right; exact not_not.mp h
  · rw [writeToRepo_normal_form, writeToRepo_normal_form]
    by_cases hs : s = "" <;> simp [hs, Except.isOk, Except.toBool]
  · intro h1 h2
    rw [writeToRepo_normal_form, writeToRepo_normal_form]
    simp [h1, h2]

/-- Witness for C7: an invalid train value `banana` is normalized and the
write behaves exactly as a release write. -/
theorem writeToRepo_normalizes_train_witness :
    WriteToRepo "default" "banana" "ld" = WriteToRepo "default" UpdateTrainRelease "ld" :=
  (writeToRepo_normalizes_train "default" "banana" "ld").2.2 (by decide) (by decide)

/-- C5 counterexample: a restricted manifest declaring origin `github.com`
and a URL that contains that origin as a substring (but not as a prefix); the
origin check `isURLAllowed` rejects the URL, so acceptance is not equivalent
to substring containment. -/
theorem isURLAllowed_rejects_substring_match :
    restrictedSource.permissions.any (fun p => p.origins.length > 0) = true
    ∧ goContains "https://github.com/user/repo" "github.com" = true
    ∧ isURLAllowed restrictedSource "https://github.com/user/repo" = false := by decide

/-- C5 (amended): in restricted mode the `isURLAllowed` check of
src/pkg/sources/source.go accepts a URL iff some permission entry declares an
empty origins list or some declared origin is a prefix of the URL, while the
duplicate `ValidatePermissions` implementation accepts iff some declared
origin is contained in the URL as a substring (so there a URL matching no
declared origin fails). -/
theorem restricted_origin_checks_characterized (s : Source) (url : String)
    (h : s.permissions.any (fun p => p.origins.length > 0) = true) :
    (isURLAllowed s url = true ↔
      ∃ p ∈ s.permissions, p.origins = [] ∨ ∃ o ∈ p.origins, goHasPfx url o = true)
    ∧ (validatePermissionsURLAllowed s url = true ↔
      ∃ p ∈ s.permissions, ∃ o ∈ p.origins, goContains url o = true) := by
  constructor
  · simp [isURLAllowed, h, List.any_eq_true, List.isEmpty_iff]
  · simp [validatePermissionsURLAllowed, h, List.any_eq_true]

/-- Witness for C5 (amended) at the restricted manifest: the
substring-matching variant accepts the GitHub URL that `isURLAllowed`
rejects. -/
theorem restricted_origin_checks_characterized_witness :
    validatePermissionsURLAllowed restrictedSource "https://github.com/user/repo" = true :=
  (restricted_origin_checks_characterized restrictedSource "https://github.com/user/repo"
      (by decide)).2.mpr ⟨⟨["github.com"]⟩, by decide, "github.com", by decide, by decide⟩

/-- Normal form of `NormalizeAndValidateURL`: normalize, then require every
loaded source to accept the normalized URL. -/
theorem normalizeAndValidateURL_eq (sources : List Source) (url : String) :
    NormalizeAndValidateURL sources url =
      match validateAllSources sources (goNormalizeURL url) with
      | .error e => .error e
      | .ok _ => .ok (goNormalizeURL url) := by
  by_cases hc : (goHasPfx url "http://" ∨ goHasPfx url "https://") <;>
    simp [NormalizeAndValidateURL, goNormalizeURL, hc]

/-- The all-sources validation loop succeeds iff every loaded source allows
the URL. -/
theorem validateAllSources_ok_iff (L : List Source) (u : String) :
    validateAllSources L u = .ok () ↔ ∀ s ∈ L, isURLAllowed s u = true := by
  induction L with
  | nil => simp [validateAllSources]
  | cons s rest ih =>
    simp only [validateAllSources, ValidateURLHost]
    by_cases ha : isURLAllowed s u
    · simp [ha, ih]
    · constructor
      · intro hEq
        rw [if_neg ha] at hEq
        cases hEq
      · intro hall
        exact absurd (hall s (List.mem_cons_self s rest)) ha

/-- C10: URL validation checks the URL against every loaded source manifest:
a success returns the normalized URL and implies that the origin
policy of every loaded source allows it, and the call fails iff some loaded source disallows
the normalized URL (so one restrictive manifest in the catalog fails the
validation for every tool). -/
theorem normalizeAndValidateURL_checks_every_source (sources : List Source) (url : String) :
    (∀ u, NormalizeAndValidateURL sources url = .ok u →
      u = goNormalizeURL url ∧ ∀ s ∈ sources, isURLAllowed s u = true)
    ∧ ((NormalizeAndValidateURL sources url).isOk = false ↔
      ∃ s ∈ sources, isURLAllowed s (goNormalizeURL url) = false) := by
  constructor
  · intro u hu
    rw [normalizeAndValidateURL_eq] at hu
    rcases hv : validateAllSources sources (goNormalizeURL url) with e | x
    · rw [hv] at hu; cases hu
    · rw [hv] at hu
      simp at hu
      subst hu
      cases x
      exact ⟨rfl, (validateAllSources_ok_iff sources _).mp hv⟩
  · rw [normalizeAndValidateURL_eq]
    rcases hv : validateAllSources sources (goNormalizeURL url) with e | x
    · simp only [Except.isOk, Except.toBool]
      have hnot : ¬ (∀ s ∈ sources, isURLAllowed s (goNormalizeURL url) = true) := by
        intro hall
        have := (validateAllSources_ok_iff sources (goNormalizeURL url)).mpr hall
        rw [this] at hv
        cases hv
      push_neg at hnot
      obtain ⟨s, hs, hfalse⟩ := hnot
      simp only [true_iff]
      exact ⟨s, hs, by simpa using hfalse⟩
    · cases x
      have hall := (validateAllSources_ok_iff sources (goNormalizeURL url)).mp hv
      simp only [Except.isOk, Except.toBool]
      constructor
      · intro hFalse; cases hFalse
      · rintro ⟨s, hs, hfalse⟩
        exact absurd (hall s hs) (by simp [hfalse])

/-- Witness for C10: with an allow-all manifest and a restrictive manifest
loaded together, a GitLab URL fails validation even though the allow-all
manifest would permit it. -/
theorem normalizeAndValidateURL_checks_every_source_witness :
    (NormalizeAndValidateURL [openSource, restrictedSource] "https://gitlab.com/x/y").isOk
      = false :=
  (normalizeAndValidateURL_checks_every_source [openSource, restrictedSource]
      "https://gitlab.com/x/y").2.mpr ⟨restrictedSource, by decide, by decide⟩

/-- An ineligible entry leaves the batch state untouched. -/
theorem processEntry_ineligible (st : BatchState) (e : ToolEntry)
    (h : eligibleEntry e = false) : processEntry st e = st := by
  simp [processEntry, h]

/-- An eligible entry is attempted exactly once and lands in exactly one of
the three buckets (updated / skipped / failed). -/
theorem processEntry_eligible (st : BatchState) (e : ToolEntry)
    (h : eligibleEntry e = true) :
    (processEntry st e).attempted = st.attempted ++ [e.name]
    ∧ (processEntry st e).updated + (processEntry st e).skipped
        + (processEntry st e).errors.length
      = st.updated + st.skipped + st.errors.length + 1 := by
  simp only [processEntry, h]
  rcases hmr : e.markerRead with m | mo
  · simp
    omega
  · rcases hur : e.upgradeResult with msg | u
    · by_cases hm : msg = "tool " ++ e.name ++ " is already up to date" <;>
        simp [hm] <;> omega
    · simp
      omega

/-- Fold invariant for the batch loop: attempts accumulate in order over the
eligible entries, and the buckets partition them. -/
theorem foldl_processEntry_spec (entries : List ToolEntry) (st0 : BatchState) :
    (entries.foldl processEntry st0).attempted
        = st0.attempted ++ (entries.filter eligibleEntry).map (fun e => e.name)
    ∧ (entries.foldl processEntry st0).updated + (entries.foldl processEntry st0).skipped
        + (entries.foldl processEntry st0).errors.length
      = st0.updated + st0.skipped + st0.errors.length
        + (entries.filter eligibleEntry).length := by
  induction entries generalizing st0 with
  | nil => simp
  | cons e rest ih =>
    by_cases he : eligibleEntry e
    · have hpe := processEntry_eligible st0 e he
      have hih := ih (processEntry st0 e)
      constructor
      · rw [List.foldl_cons, hih.1, hpe.1]
        simp [List.filter_cons, he]
      · rw [List.foldl_cons, hih.2]
        rw [hpe.2]
        simp [List.filter_cons, he]
        omega
    · have he' : eligibleEntry e = false := by simpa using he
      rw [List.foldl_cons, processEntry_ineligible st0 e he']
      have hih := ih st0
      simpa [List.filter_cons, he'] using hih

/-- C9: the batch upgrade attempts every eligible working copy exactly once
(in directory order, so one failure never prevents the remaining attempts),
partitions them into updated / skipped / failed counts for the summary, and
the overall call fails iff at least one tool failed. -/
theorem upgradeAllTools_batch_isolation (entries : List ToolEntry) :
    ((upgradeAllTools entries).1.attempted
        = (entries.filter eligibleEntry).map (fun e => e.name))
    ∧ ((upgradeAllTools entries).1.updated + (upgradeAllTools entries).1.skipped
        + (upgradeAllTools entries).1.errors.length
      = (entries.filter eligibleEntry).length)
    ∧ ((upgradeAllTools entries).2 = .ok () ↔ (upgradeAllTools entries).1.errors = []) := by
  unfold upgradeAllTools
  by_cases h0 : (entries.filter eligibleEntry).length = 0
  · have hempty : entries.filter eligibleEntry = [] := List.length_eq_zero.mp h0
    simp [h0, hempty]
  · have hf := foldl_processEntry_spec entries ⟨[], 0, 0, []⟩
    simp only [h0, if_false]
    refine ⟨?_, ?_, ?_⟩
    · simpa using hf.1
    · simpa using hf.2
    · by_cases he : (entries.foldl processEntry ⟨[], 0, 0, []⟩).errors.isEmpty
      · simp [he, List.isEmpty_iff.mp he]
      · have : (entries.foldl processEntry ⟨[], 0, 0, []⟩).errors ≠ [] := by
          intro hnil
          exact he (by simp [hnil])
        simp [he, this]

/-- Witness for C9 at the three-tool scenario of the spec (the second tool fails):
all three tools are attempted, in order. -/
theorem upgradeAllTools_batch_isolation_witness :
    (upgradeAllTools [batchEntry "a" (.ok ()),
        batchEntry "b" (.error "failed to update b: build failed"),
        batchEntry "c" (.ok ())]).1.attempted = ["a", "b", "c"] :=
  ((upgradeAllTools_batch_isolation [batchEntry "a" (.ok ()),
        batchEntry "b" (.error "failed to update b: build failed"),
        batchEntry "c" (.ok ())]).1).trans (by decide)

/-- On a successful run, the registration tail of `UpdatePackage` appends the
alias effect (when an executable is declared) and the load-source effect, and
passes the up-to-date flag through. -/
theorem aliasSteps_ok_spec (repo : ToolRepo) (env : UpdateEnv) (effs : List Effect)
    (u : Bool) (h : (aliasSteps repo env effs u).result = .ok ()) :
    (aliasSteps repo env effs u).effects
      = effs ++ (if repo.executable = "" then [Effect.addSource repo.name]
          else [Effect.addAlias repo.name, Effect.addSource repo.name])
    ∧ (aliasSteps repo env effs u).upToDate = u := by
  by_cases he : repo.executable = ""
  · rcases hs : env.addSourceResult with es | s
    · exfalso; simp [aliasSteps, he, hs] at h
    · simp [aliasSteps, he, hs]
  · rcases ha : env.addAliasResult with ea | a
    · exfalso; simp [aliasSteps, he, ha] at h
    · rcases hs : env.addSourceResult with es | s
      · exfalso; simp [aliasSteps, he, ha, hs] at h
      · simp [aliasSteps, he, ha, hs]

/-- On a successful run the rebuild step of `UpdatePackage` performs the build
exactly when the build is not skipped, and never reports up to date. -/
theorem buildSteps_ok_spec (repo : ToolRepo) (env : UpdateEnv) (effs : List Effect)
    (h : (buildSteps repo env effs).result = .ok ()) :
    (buildSteps repo env effs).effects
      = (effs ++ (if repo.skipBuild then [] else [Effect.build repo.build]))
        ++ (if repo.executable = "" then [Effect.addSource repo.name]
            else [Effect.addAlias repo.name, Effect.addSource repo.name])
    ∧ (buildSteps repo env effs).upToDate = false := by
  by_cases hsb : repo.skipBuild
  · have hred : buildSteps repo env effs = aliasSteps repo env effs false := by
      simp [buildSteps, hsb]
    rw [hred] at h ⊢
    have hs := aliasSteps_ok_spec repo env effs false h
    simp [hsb, hs.1, hs.2]
  · rcases hb : env.buildResult with eb | b
    · exfalso
      have hred : buildSteps repo env effs
          = ⟨effs ++ [Effect.build repo.build],
              .error ("failed to build tool: " ++ eb), false⟩ := by
        simp [buildSteps, hsb, hb]
      rw [hred] at h
      cases h
    · have hred : buildSteps repo env effs
          = aliasSteps repo env (effs ++ [Effect.build repo.build]) false := by
        simp [buildSteps, hsb, hb]
      rw [hred] at h ⊢
      have hs := aliasSteps_ok_spec repo env (effs ++ [Effect.build repo.build]) false h
      simp [hsb, hs.1, hs.2]

/-- C1 (amended): on a successful `UpdatePackage` run, the refs are captured
before and after the move and the build runs iff they differ (and the build
is not skipped); the tool is reported already up to date iff they agree; but
the alias registration runs iff an executable is declared — unconditionally
with respect to the ref comparison — and the load-source registration always
runs. -/
theorem updatePackage_build_iff_refs_differ (repo : ToolRepo) (env : UpdateEnv)
    (a b : String) (ha : env.refBefore = .ok a) (hb : env.refAfter = .ok b)
    (hok : (UpdatePackage repo env).result = .ok ()) :
    ((Effect.build repo.build ∈ (UpdatePackage repo env).effects)
        ↔ (a ≠ b ∧ repo.skipBuild = false))
    ∧ ((Effect.addAlias repo.name ∈ (UpdatePackage repo env).effects)
        ↔ repo.executable ≠ "")
    ∧ (Effect.addSource repo.name ∈ (UpdatePackage repo env).effects)
    ∧ ((UpdatePackage repo env).upToDate = true ↔ a = b) := by
  by_cases hex : env.repoDirExists
  swap
  · exfalso; simp [UpdatePackage, hex] at hok
  rcases hur : env.updateRepoResult with e | u
  · exfalso; simp [UpdatePackage, hex, ha, hur] at hok
  by_cases hab : a = b
  · have hred : UpdatePackage repo env
        = aliasSteps repo env [.getRepoState, .updateRepo repo.useEdge, .getRepoState] true := by
      simp [UpdatePackage, hex, ha, hur, hb, hab]
    rw [hred] at hok ⊢
    obtain ⟨heff, hupd⟩ := aliasSteps_ok_spec repo env _ true hok
    rw [heff, hupd]
    by_cases hexe : repo.executable = "" <;> simp [hexe, hab]
  · have hproceed :
        ∀ effs0, (buildSteps repo env effs0).result = .ok () →
          (Effect.build repo.build ∉ effs0) →
          (Effect.addAlias repo.name ∉ effs0) →
          (Effect.addSource repo.name ∉ effs0) →
          ((Effect.build repo.build ∈ (buildSteps repo env effs0).effects)
              ↔ (a ≠ b ∧ repo.skipBuild = false))
          ∧ ((Effect.addAlias repo.name ∈ (buildSteps repo env effs0).effects)
              ↔ repo.executable ≠ "")
          ∧ (Effect.addSource repo.name ∈ (buildSteps repo env effs0).effects)
          ∧ ((buildSteps repo env effs0).upToDate = true ↔ a = b) := by
      intro effs0 h0 hnb hna hns
      obtain ⟨heff, hupd⟩ := buildSteps_ok_spec repo env effs0 h0
      rw [heff, hupd]
      by_cases hexe : repo.executable = "" <;> by_cases hsb : repo.skipBuild <;>
        simp [hexe, hsb, hab, hnb, hna, hns]
    by_cases huse : repo.useEdge
    · have hred : UpdatePackage repo env
          = buildSteps repo env [.getRepoState, .updateRepo repo.useEdge, .getRepoState] := by
        simp [UpdatePackage, hex, ha, hur, hb, hab, huse]
      rw [hred] at hok ⊢
      exact hproceed _ hok (by simp) (by simp) (by simp)
    · rcases hct : env.currentTagResult with e | c
      · exfalso
        simp [UpdatePackage, hex, ha, hur, hb, hab, huse, hct] at hok
      · have hred : UpdatePackage repo env
            = buildSteps repo env
                [.getRepoState, .updateRepo repo.useEdge, .getRepoState, .getCurrentTag] := by
          simp [UpdatePackage, hex, ha, hur, hb, hab, huse, hct]
        rw [hred] at hok ⊢
        exact hproceed _ hok (by simp) (by simp) (by simp)

/-- Witness for C1 (amended) at the concrete up-to-date run: the alias is
registered and the tool is reported up to date. -/
theorem updatePackage_build_iff_refs_differ_witness :
    (Effect.addAlias "k9s" ∈ (UpdatePackage k9sToolRepo envRefsEqual).effects)
    ∧ (UpdatePackage k9sToolRepo envRefsEqual).upToDate = true := by
  have h := updatePackage_build_iff_refs_differ k9sToolRepo envRefsEqual
    "v1.0" "v1.0" rfl rfl (by decide)
  exact ⟨h.2.1.mpr (by decide), h.2.2.2.mpr rfl⟩

/-- C1 counterexample: an up-to-date run (equal refs before and after) with
an executable declared still registers the alias and the load-source entry —
the claim that alias registration runs only when the refs differ fails. -/
theorem updatePackage_registers_alias_when_up_to_date :
    UpdatePackage k9sToolRepo envRefsEqual
      = ⟨[.getRepoState, .updateRepo false, .getRepoState, .addAlias "k9s", .addSource "k9s"],
          .ok (), true⟩
    ∧ envRefsEqual.refBefore = envRefsEqual.refAfter := by decide

/-- `UpdatePackage` performs no update-availability check: its effect trace
never contains a tag listing, an edge-head comparison or a fetch probe. -/
theorem updatePackage_no_update_check (repo : ToolRepo) (env : UpdateEnv) :
    Effect.checkTags ∉ (UpdatePackage repo env).effects
    ∧ Effect.checkEdgeUpdates ∉ (UpdatePackage repo env).effects
    ∧ Effect.fetchUpdates ∉ (UpdatePackage repo env).effects := by
  unfold UpdatePackage buildSteps aliasSteps
  repeat' split
  all_goals simp

/-- C2: on an install of an installed tool whose marker pins a manifest, when
the resolved update train differs from the train of the marker, the new record is
written first and the package move (checkout plus conditional rebuild) only
happens afterwards, and no update-availability check occurs in the trace;
the call reports "updated". -/
theorem installTool_train_switch_prewrites
    (srcs : List Source) (matchList : List RepoMatch) (toolName : String)
    (edge release skipBuild : Bool) (env : InstallEnv)
    (g : GetGitFile) (m : RepoMatch) (u t : String) (w : GetGitFile)
    (hInst : env.isInstalledResult = .ok true)
    (hMark : env.markerRead = .ok (some g))
    (hFind : matchList.find? (fun x => x.source.name = g.sourceName) = some m)
    (hURL : NormalizeAndValidateURL srcs m.repo.url = .ok u)
    (ht : t = (GetUpdateTrain toolName env.markerRead env.hasTagsGG edge release).1)
    (hChange : g.updateTrain ≠ t)
    (hWrite : WriteToRepo m.source.name t m.repo.load = .ok w) :
    installTool srcs matchList toolName edge release skipBuild env
      = (Effect.writeGetgit w ::
          (UpdatePackage ⟨m.repo.name, u, m.repo.build, m.repo.executable, m.repo.load,
            decide (t = UpdateTrainEdge), skipBuild, m.source.name⟩ env.updatePkg).effects,
        match (UpdatePackage ⟨m.repo.name, u, m.repo.build, m.repo.executable, m.repo.load,
            decide (t = UpdateTrainEdge), skipBuild, m.source.name⟩ env.updatePkg).result with
        | .error e => .error ("failed to install tool: " ++ e)
        | .ok _ => .ok "updated")
    ∧ Effect.checkTags ∉ (installTool srcs matchList toolName edge release skipBuild env).1
    ∧ Effect.checkEdgeUpdates
        ∉ (installTool srcs matchList toolName edge release skipBuild env).1
    ∧ Effect.fetchUpdates ∉ (installTool srcs matchList toolName edge release skipBuild env).1 := by
  have hne : matchList ≠ [] := by
    intro hnil
    subst hnil
    simp at hFind
  have hisEmpty : matchList.isEmpty = false := by
    simpa [List.isEmpty_iff] using hne
  subst ht
  have heq : installTool srcs matchList toolName edge release skipBuild env
      = (Effect.writeGetgit w ::
          (UpdatePackage ⟨m.repo.name, u, m.repo.build, m.repo.executable, m.repo.load,
            decide ((GetUpdateTrain toolName env.markerRead env.hasTagsGG edge release).1
              = UpdateTrainEdge), skipBuild, m.source.name⟩ env.updatePkg).effects,
        match (UpdatePackage ⟨m.repo.name, u, m.repo.build, m.repo.executable, m.repo.load,
            decide ((GetUpdateTrain toolName env.markerRead env.hasTagsGG edge release).1
              = UpdateTrainEdge), skipBuild, m.source.name⟩ env.updatePkg).result with
        | .error e => .error ("failed to install tool: " ++ e)
        | .ok _ => .ok "updated") := by
    rw [hMark] at hChange hWrite
    simp only [installTool, hisEmpty, hInst, hMark, hFind, hURL, hWrite, hChange]
    simp [hChange, hWrite]
    rw [hURL]
  refine ⟨heq, ?_, ?_, ?_⟩ <;>
    rw [heq] <;>
    simp [updatePackage_no_update_check]

/-- Witness for C2 (scenario P2 of the spec): a marker on the release train
upgraded with the edge flag writes an edge marker first and then moves the
working copy (checkout and pull through the repository update effect), even
though no new release tag exists; no update-availability check happens. -/
theorem installTool_train_switch_prewrites_witness :
    installTool [openSource] [k9sMatch] "k9s" true false false envInstallSwitch
      = ([.writeGetgit ⟨"default", "edge", "ld"⟩, .getRepoState, .updateRepo true,
          .getRepoState, .build "make build", .addAlias "k9s", .addSource "k9s"],
        .ok "updated") :=
  (installTool_train_switch_prewrites [openSource] [k9sMatch] "k9s" true false false
      envInstallSwitch ⟨"default", "release", "ld"⟩ k9sMatch
      "https://github.com/u.git" "edge" ⟨"default", "edge", "ld"⟩
      rfl rfl (by decide) (by decide) (by decide) (by decide) (by decide)).1.trans
    (by decide)

/-- C8 (code behaviour at the failing input of the claim): a tool recorded on the
edge train, upgraded successfully through `upgradeSpecificTool`, ends with a
marker write that records train release — the only record written during the
run carries release, not the edge train the marker held before. -/
theorem upgradeSpecificTool_persists_release_after_edge_upgrade :
    envUpgradeEdge.markerRead = .ok (some ⟨"default", "edge", "ld"⟩)
    ∧ (upgradeSpecificTool [k9sMatch] "k9s" false envUpgradeEdge).2 = .ok ()
    ∧ ((upgradeSpecificTool [k9sMatch] "k9s" false envUpgradeEdge).1.filter
        (fun e => match e with | .writeGetgit _ => true | _ => false))
      = [.writeGetgit ⟨"default", "release", "ld"⟩] := by decide

end Getgit
